import Mathlib

/-!
Shallow embedding of the board-tracking application (`src/app.py`).

Boards and their update-history entries are kept in lists; the database
autoincrement primary keys are modelled by explicit `nextBoardId` /
`nextHistoryId` counters in the store.  Each web handler that mutates
state becomes a pure function from a store (plus the parsed form fields
and the acting user's name) to a result carrying the new store, with the
error redirects of the handler mapped to explicit error constructors.
-/

/-- A row of the `Board` table (`src/app.py` lines 55-63). -/
structure Board where
  id : Nat
  name : String
  serialNumber : Option String
  location : String
  user : String
  updatedAt : String
  notes : String
deriving DecidableEq

/-- A row of the `UpdateHistory` table (`src/app.py` lines 47-53). -/
structure UpdateHistory where
  id : Nat
  boardId : Nat
  previousLocation : String
  newLocation : String
  updatedBy : String
  updatedAt : String
deriving DecidableEq

/-- The persistent state: both tables plus the autoincrement counters. -/
structure Store where
  boards : List Board
  histories : List UpdateHistory
  nextBoardId : Nat
  nextHistoryId : Nat
deriving DecidableEq

/-- The form fields read by `add_board` and `update_board`.  A missing
field is modelled as the empty string (Flask's falsy default). -/
structure BoardForm where
  name : String
  serial_number : String
  notes : String
  location_select : String
  location_other : String
deriving DecidableEq

/-- The form fields read by `bulk_update` (besides `board_ids`). -/
structure BulkForm where
  location_select : String
  location_other : String
deriving DecidableEq

/-- `request.form.get('serial_number') or None` (lines 162, 192): an
empty serial number is coalesced to `None`. -/
def normSerial (sn : String) : Option String :=
  if sn = "" then none else some sn

/-- `request.form.get('location_other') if location_select == 'その他'
else location_select` (lines 175, 205, 239). -/
def chosenLocation (sel other : String) : String :=
  if sel = "その他" then other else sel

/-- `Board.query.get(bid)` / `Board.query.get_or_404(bid)`. -/
def boardById (s : Store) (bid : Nat) : Option Board :=
  s.boards.find? (fun b => b.id == bid)

/-- Outcome of the `add_board` POST handler. -/
inductive AddResult where
  | validationError
  | nameConflict
  | serialConflict
  | success (s : Store)
deriving DecidableEq

/-- The `add_board` POST handler (`src/app.py` lines 159-181). -/
def add_board (s : Store) (f : BoardForm) (username now : String) : AddResult :=
  let serial := normSerial f.serial_number
  if f.name = "" ∨ f.location_select = "" then .validationError
  else if s.boards.any (fun b => b.name == f.name) then .nameConflict
  else if serial.isSome && s.boards.any (fun b => b.serialNumber == serial) then .serialConflict
  else
    let location := chosenLocation f.location_select f.location_other
    .success { boards := s.boards ++
                 [{ id := s.nextBoardId, name := f.name, serialNumber := serial,
                    location := location, user := username, updatedAt := now,
                    notes := f.notes }],
               histories := s.histories,
               nextBoardId := s.nextBoardId + 1,
               nextHistoryId := s.nextHistoryId }

/-- Outcome of the `update_board` POST handler. -/
inductive UpdateResult where
  | notFound
  | validationError
  | nameConflict
  | serialConflict
  | success (s : Store)
deriving DecidableEq

/-- The `update_board` POST handler (`src/app.py` lines 186-218).  A
history entry is written exactly when the location or the custodian
changes (line 207); all mutable fields are then overwritten. -/
def update_board (s : Store) (bid : Nat) (f : BoardForm) (username now : String) :
    UpdateResult :=
  match s.boards.find? (fun b => b.id == bid) with
  | none => .notFound
  | some board =>
    let serial := normSerial f.serial_number
    if f.name = "" ∨ f.location_select = "" then .validationError
    else if s.boards.any (fun b => b.name == f.name && b.id != bid) then .nameConflict
    else if serial.isSome && s.boards.any (fun b => b.serialNumber == serial && b.id != bid)
      then .serialConflict
    else
      let newLoc := chosenLocation f.location_select f.location_other
      let material := board.location ≠ newLoc ∨ board.user ≠ username
      .success { boards := s.boards.map (fun b =>
                   if b.id == bid then
                     { b with name := f.name, serialNumber := serial, notes := f.notes,
                              location := newLoc, user := username, updatedAt := now }
                   else b),
                 histories :=
                   if material then
                     s.histories ++
                       [{ id := s.nextHistoryId, boardId := bid,
                          previousLocation := board.location, newLocation := newLoc,
                          updatedBy := username, updatedAt := now }]
                   else s.histories,
                 nextBoardId := s.nextBoardId,
                 nextHistoryId := if material then s.nextHistoryId + 1 else s.nextHistoryId }

/-- The `delete_board` POST handler (`src/app.py` lines 223-228); the
`cascade="all, delete-orphan"` relationship (line 63) removes every
history row of the deleted board in the same commit.  `none` models the
404 of `get_or_404`. -/
def delete_board (s : Store) (bid : Nat) : Option Store :=
  match s.boards.find? (fun b => b.id == bid) with
  | none => none
  | some _ =>
      some { s with boards := s.boards.filter (fun b => !(b.id == bid)),
                    histories := s.histories.filter (fun h => !(h.boardId == bid)) }

/-- One iteration of the `for board_id in board_ids` loop of
`bulk_update` (`src/app.py` lines 242-253), threading the store and
`updated_count`. -/
def bulkStep (newLoc updater now : String) (sc : Store × Nat) (bid : Nat) : Store × Nat :=
  match sc.1.boards.find? (fun b => b.id == bid) with
  | none => sc
  | some board =>
      let s := sc.1
      let material := board.location ≠ newLoc ∨ board.user ≠ updater
      ({ boards := s.boards.map (fun b =>
           if b.id == bid then { b with location := newLoc, user := updater, updatedAt := now }
           else b),
         histories :=
           if material then
             s.histories ++
               [{ id := s.nextHistoryId, boardId := board.id,
                  previousLocation := board.location, newLocation := newLoc,
                  updatedBy := updater, updatedAt := now }]
           else s.histories,
         nextBoardId := s.nextBoardId,
         nextHistoryId := if material then s.nextHistoryId + 1 else s.nextHistoryId },
       sc.2 + 1)

/-- The loop of `bulk_update`, in list order. -/
def bulkRun (newLoc updater now : String) : List Nat → Store × Nat → Store × Nat
  | [], sc => sc
  | bid :: rest, sc => bulkRun newLoc updater now rest (bulkStep newLoc updater now sc bid)

/-- The `bulk_update` POST handler (`src/app.py` lines 232-257).
`none` models the early error redirect on an empty selection; otherwise
the result is the updated store and the reported `updated_count`. -/
def bulk_update (s : Store) (board_ids : List Nat) (f : BulkForm) (updater now : String) :
    Option (Store × Nat) :=
  if board_ids = [] then none
  else
    let newLoc := chosenLocation f.location_select f.location_other
    some (bulkRun newLoc updater now board_ids (s, 0))

/-- Ascending-by-name comparison used by `Board.name.asc()`. -/
def nameAsc (a b : Board) : Prop := a.name ≤ b.name

/-- Descending-by-name comparison used by `Board.name.desc()`. -/
def nameDesc (a b : Board) : Prop := b.name ≤ a.name

/-- Ascending-by-id comparison used by `Board.id.asc()`. -/
def idAsc (a b : Board) : Prop := a.id ≤ b.id

instance : DecidableRel nameAsc := fun a b => (inferInstance : Decidable (a.name ≤ b.name))
instance : DecidableRel nameDesc := fun a b => (inferInstance : Decidable (b.name ≤ a.name))
instance : DecidableRel idAsc := fun a b => (inferInstance : Decidable (a.id ≤ b.id))

instance : IsTotal Board nameAsc := ⟨fun a b => le_total a.name b.name⟩
instance : IsTrans Board nameAsc := ⟨fun _ _ _ hab hbc => le_trans hab hbc⟩
instance : IsTotal Board nameDesc := ⟨fun a b => le_total b.name a.name⟩
instance : IsTrans Board nameDesc := ⟨fun _ _ _ hab hbc => le_trans hbc hab⟩
instance : IsTotal Board idAsc := ⟨fun a b => Nat.le_total a.id b.id⟩
instance : IsTrans Board idAsc := ⟨fun _ _ _ hab hbc => Nat.le_trans hab hbc⟩

/-- The board listing of the `index` handler (`src/app.py` lines
143-151): `sort_by == 'name'` sorts by name, descending exactly when
`order == 'desc'`; every other `sort_by` sorts by id ascending. -/
def index (s : Store) (sort_by order : String) : List Board :=
  if sort_by = "name" then
    if order = "desc" then List.insertionSort nameDesc s.boards
    else List.insertionSort nameAsc s.boards
  else List.insertionSort idAsc s.boards

/-- The `history` handler (`src/app.py` lines 261-264): 404 (`none`)
when the board does not exist, otherwise its entries ordered by id
descending. -/
def history (s : Store) (bid : Nat) : Option (List UpdateHistory) :=
  match s.boards.find? (fun b => b.id == bid) with
  | none => none
  | some _ =>
      some (List.insertionSort (fun a b : UpdateHistory => b.id ≤ a.id)
        (s.histories.filter (fun h => h.boardId == bid)))

/-- The operations a caller can perform against the store. -/
inductive Op where
  | add (f : BoardForm) (username now : String)
  | update (bid : Nat) (f : BoardForm) (username now : String)
  | bulk (ids : List Nat) (f : BulkForm) (updater now : String)
  | del (bid : Nat)

/-- Creation record: for each board id, the location and custodian it
was given at creation (used to state the audit-trail invariant). -/
def CreationMap := Nat → Option (String × String)

/-- Apply one operation; failed operations leave the state unchanged
(the handlers redirect before any write on their error paths). -/
def applyOp (sc : Store × CreationMap) (op : Op) : Store × CreationMap :=
  match op with
  | .add f u now =>
      match add_board sc.1 f u now with
      | .success s' =>
          (s', fun i => if i = sc.1.nextBoardId then
                 some (chosenLocation f.location_select f.location_other, u)
               else sc.2 i)
      | _ => sc
  | .update bid f u now =>
      match update_board sc.1 bid f u now with
      | .success s' => (s', sc.2)
      | _ => sc
  | .bulk ids f u now =>
      match bulk_update sc.1 ids f u now with
      | some (s', _) => (s', sc.2)
      | none => sc
  | .del bid =>
      match delete_board sc.1 bid with
      | some s' => (s', sc.2)
      | none => sc

/-- The empty store of a fresh database. -/
def initStore : Store :=
  { boards := [], histories := [], nextBoardId := 1, nextHistoryId := 1 }

/-- Run a sequence of operations from the fresh database. -/
def runOps (ops : List Op) : Store × CreationMap :=
  ops.foldl applyOp (initStore, fun _ => none)

/-- Of two history entries, keep the one with the larger id. -/
def laterEntry : Option UpdateHistory → UpdateHistory → Option UpdateHistory
  | none, h => some h
  | some e, h => if e.id < h.id then some h else some e

/-- The entry with the largest id among the entries of board `bid`. -/
def maxEntryOf (hs : List UpdateHistory) (bid : Nat) : Option UpdateHistory :=
  (hs.filter (fun h => h.boardId == bid)).foldl laterEntry none

/-- The most recent audit entry of board `bid` in store `s`. -/
def maxEntryFor (s : Store) (bid : Nat) : Option UpdateHistory :=
  maxEntryOf s.histories bid

/-- Structural well-formedness maintained by every operation: ids are
below the autoincrement counters, history rows reference existing
boards, and board ids are pairwise distinct. -/
def WF (s : Store) : Prop :=
  (∀ b ∈ s.boards, b.id < s.nextBoardId) ∧
  (∀ h ∈ s.histories, h.id < s.nextHistoryId) ∧
  (∀ h ∈ s.histories, ∃ b ∈ s.boards, b.id = h.boardId) ∧
  (s.boards.map Board.id).Nodup

/-- The audit-trail invariant: every board's location and custodian
agree with its most recent history entry, or with its creation record
when it has no entry. -/
def Consistent (s : Store) (c : CreationMap) : Prop :=
  ∀ b ∈ s.boards,
    (∀ e, maxEntryFor s b.id = some e → b.location = e.newLocation ∧ b.user = e.updatedBy) ∧
    (maxEntryFor s b.id = none → c b.id = some (b.location, b.user))

/-- Sample board used to instantiate theorems with hypotheses. -/
def bA : Board :=
  { id := 1, name := "alpha", serialNumber := none, location := "L1", user := "alice",
    updatedAt := "2024/01/01 00:00", notes := "" }

/-- A second sample board. -/
def bB : Board :=
  { id := 2, name := "beta", serialNumber := some "SN2", location := "L2", user := "alice",
    updatedAt := "2024/01/01 00:00", notes := "" }

/-- Sample store holding the two sample boards and one history row. -/
def sAB : Store :=
  { boards := [bA, bB],
    histories := [{ id := 1, boardId := 1, previousLocation := "L0", newLocation := "L1",
                    updatedBy := "alice", updatedAt := "2024/01/01 00:00" }],
    nextBoardId := 3, nextHistoryId := 2 }

/-- Sample single-board update form moving `bA` to location `L9`. -/
def fUpd : BoardForm :=
  { name := "alpha", serial_number := "", notes := "", location_select := "L9",
    location_other := "" }

/-- Sample bulk form selecting location `L9`. -/
def fBulk : BulkForm := { location_select := "L9", location_other := "" }

/-- `bA` after the sample update `fUpd` performed by `bob` at `t3`. -/
def bA9 : Board :=
  { id := 1, name := "alpha", serialNumber := none, location := "L9", user := "bob",
    updatedAt := "t3", notes := "" }

/-- The store produced by `update_board sAB 1 fUpd "bob" "t3"`. -/
def sUpd : Store :=
  { boards := [bA9, bB],
    histories := [{ id := 1, boardId := 1, previousLocation := "L0", newLocation := "L1",
                    updatedBy := "alice", updatedAt := "2024/01/01 00:00" },
                  { id := 2, boardId := 1, previousLocation := "L1", newLocation := "L9",
                    updatedBy := "bob", updatedAt := "t3" }],
    nextBoardId := 3, nextHistoryId := 3 }

/-- The store produced by `bulk_update sAB [1, 2, 99] fBulk "bob" "t3"`. -/
def sBulk : Store :=
  { boards := [{ id := 1, name := "alpha", serialNumber := none, location := "L9",
                 user := "bob", updatedAt := "t3", notes := "" },
               { id := 2, name := "beta", serialNumber := some "SN2", location := "L9",
                 user := "bob", updatedAt := "t3", notes := "" }],
    histories := [{ id := 1, boardId := 1, previousLocation := "L0", newLocation := "L1",
                    updatedBy := "alice", updatedAt := "2024/01/01 00:00" },
                  { id := 2, boardId := 1, previousLocation := "L1", newLocation := "L9",
                    updatedBy := "bob", updatedAt := "t3" },
                  { id := 3, boardId := 2, previousLocation := "L2", newLocation := "L9",
                    updatedBy := "bob", updatedAt := "t3" }],
    nextBoardId := 3, nextHistoryId := 4 }

/-- Sample creation form with an empty name. -/
def fEmpty : BoardForm :=
  { name := "", serial_number := "", notes := "", location_select := "L1",
    location_other := "" }

/-- The board created by running `Op.add fUpd "alice" "t1"` on the
fresh store. -/
def bNew : Board :=
  { id := 1, name := "alpha", serialNumber := none, location := "L9", user := "alice",
    updatedAt := "t1", notes := "" }

/-- Sample creation form reusing the existing name `alpha`. -/
def fDup : BoardForm :=
  { name := "alpha", serial_number := "", notes := "", location_select := "L5",
    location_other := "" }

/-- The empty creation record. -/
def cEmpty : CreationMap := fun _ => none

/-! ### Helper lemmas -/

theorem boardById_mem {s : Store} {bid : Nat} {b : Board} (h : boardById s bid = some b) :
    b ∈ s.boards ∧ b.id = bid := by
  unfold boardById at h
  refine ⟨List.mem_of_find?_eq_some h, ?_⟩
  have hp := List.find?_some h
  simpa using hp

theorem find?_map_preserve (l : List Board) (g : Board → Board)
    (hg : ∀ b, (g b).id = b.id) (bid : Nat) :
    (l.map g).find? (fun b => b.id == bid) = (l.find? (fun b => b.id == bid)).map g := by
  have hp : ((fun b : Board => b.id == bid) ∘ g) = fun b : Board => b.id == bid := by
    funext b
    simp only [Function.comp_apply, hg b]
  rw [List.find?_map, hp]

theorem nodup_ids_map (l : List Board) (g : Board → Board) (hg : ∀ b, (g b).id = b.id)
    (h : (l.map Board.id).Nodup) : ((l.map g).map Board.id).Nodup := by
  rw [List.map_map]
  have he : l.map (Board.id ∘ g) = l.map Board.id := List.map_congr_left (fun b _ => hg b)
  rw [he]
  exact h

theorem nodup_ids_inj {l : List Board} (h : (l.map Board.id).Nodup) {a b : Board}
    (ha : a ∈ l) (hb : b ∈ l) (hid : a.id = b.id) : a = b :=
  List.inj_on_of_nodup_map h ha hb hid

theorem foldl_laterEntry_mem (hs : List UpdateHistory) :
    ∀ (acc : Option UpdateHistory) (e : UpdateHistory),
      hs.foldl laterEntry acc = some e → acc = some e ∨ e ∈ hs := by
  induction hs with
  | nil => intro acc e h; exact .inl h
  | cons x hs ih =>
      intro acc e h
      rcases ih (laterEntry acc x) e h with h1 | h2
      · cases acc with
        | none =>
            simp only [laterEntry] at h1
            injection h1 with h1
            subst h1
            exact .inr (List.mem_cons_self _ _)
        | some a =>
            simp only [laterEntry] at h1
            split at h1
            · injection h1 with h1
              subst h1
              exact .inr (List.mem_cons_self _ _)
            · exact .inl h1
      · exact .inr (List.mem_cons_of_mem _ h2)

theorem maxEntryOf_append_ne (hs : List UpdateHistory) (e : UpdateHistory) (bid : Nat)
    (h : e.boardId ≠ bid) : maxEntryOf (hs ++ [e]) bid = maxEntryOf hs bid := by
  unfold maxEntryOf
  rw [List.filter_append]
  have hf : List.filter (fun x => x.boardId == bid) [e] = [] := by
    simp [h]
  rw [hf, List.append_nil]

theorem maxEntryOf_append_self (hs : List UpdateHistory) (e : UpdateHistory) (bid : Nat)
    (hbid : e.boardId = bid) (hmax : ∀ x ∈ hs, x.id < e.id) :
    maxEntryOf (hs ++ [e]) bid = some e := by
  unfold maxEntryOf
  rw [List.filter_append]
  have hf : List.filter (fun x => x.boardId == bid) [e] = [e] := by
    simp [hbid]
  rw [hf, List.foldl_append]
  show laterEntry ((hs.filter (fun x => x.boardId == bid)).foldl laterEntry none) e = some e
  cases hacc : (hs.filter (fun x => x.boardId == bid)).foldl laterEntry none with
  | none => simp [laterEntry]
  | some a =>
      rcases foldl_laterEntry_mem _ none a hacc with h1 | h2
      · cases h1
      · have hmem : a ∈ hs := (List.mem_filter.mp h2).1
        simp [laterEntry, hmax a hmem]

theorem maxEntryOf_filter_ne (hs : List UpdateHistory) (bid bid' : Nat) (h : bid' ≠ bid) :
    maxEntryOf (hs.filter (fun x => !(x.boardId == bid))) bid' = maxEntryOf hs bid' := by
  unfold maxEntryOf
  rw [List.filter_filter]
  have hc : hs.filter (fun a => (a.boardId == bid') && !(a.boardId == bid)) =
      hs.filter (fun a => a.boardId == bid') := by
    apply List.filter_congr
    intro x _
    by_cases hx : x.boardId = bid'
    · simp [hx, h]
    · simp [hx]
  rw [hc]

theorem maxEntryOf_none_of_not_mem (hs : List UpdateHistory) (bid : Nat)
    (h : ∀ x ∈ hs, x.boardId ≠ bid) : maxEntryOf hs bid = none := by
  unfold maxEntryOf
  have hf : hs.filter (fun x => x.boardId == bid) = [] := by
    rw [List.filter_eq_nil_iff]
    intro a ha
    simp [h a ha]
  rw [hf]
  rfl

/-! ### Shape of each operation's successful result -/

theorem add_board_success_shape {s : Store} {f : BoardForm} {u now : String} {s' : Store}
    (h : add_board s f u now = .success s') :
    ¬(f.name = "" ∨ f.location_select = "") ∧
    (s.boards.any (fun b => b.name == f.name)) = false ∧
    s' = { boards := s.boards ++
             [{ id := s.nextBoardId, name := f.name, serialNumber := normSerial f.serial_number,
                location := chosenLocation f.location_select f.location_other, user := u,
                updatedAt := now, notes := f.notes }],
           histories := s.histories,
           nextBoardId := s.nextBoardId + 1,
           nextHistoryId := s.nextHistoryId } := by
  unfold add_board at h
  by_cases h1 : f.name = "" ∨ f.location_select = ""
  · rw [if_pos h1] at h
    exact AddResult.noConfusion h
  · rw [if_neg h1] at h
    by_cases h2 : (s.boards.any (fun b => b.name == f.name)) = true
    · rw [if_pos h2] at h
      exact AddResult.noConfusion h
    · rw [if_neg h2] at h
      by_cases h3 : ((normSerial f.serial_number).isSome &&
          s.boards.any (fun b => b.serialNumber == normSerial f.serial_number)) = true
      · rw [if_pos h3] at h
        exact AddResult.noConfusion h
      · rw [if_neg h3] at h
        refine ⟨h1, Bool.not_eq_true _ ▸ h2, ?_⟩
        simp only [AddResult.success.injEq] at h
        exact h.symm

theorem update_board_success_shape {s : Store} {bid : Nat} {f : BoardForm} {u now : String}
    {s' : Store} {board : Board}
    (hb : boardById s bid = some board)
    (h : update_board s bid f u now = .success s') :
    s' = { boards := s.boards.map (fun b =>
             if b.id == bid then
               { b with name := f.name, serialNumber := normSerial f.serial_number,
                        notes := f.notes,
                        location := chosenLocation f.location_select f.location_other,
                        user := u, updatedAt := now }
             else b),
           histories :=
             if board.location ≠ chosenLocation f.location_select f.location_other ∨
                 board.user ≠ u then
               s.histories ++
                 [{ id := s.nextHistoryId, boardId := bid,
                    previousLocation := board.location,
                    newLocation := chosenLocation f.location_select f.location_other,
                    updatedBy := u, updatedAt := now }]
             else s.histories,
           nextBoardId := s.nextBoardId,
           nextHistoryId :=
             if board.location ≠ chosenLocation f.location_select f.location_other ∨
                 board.user ≠ u then
               s.nextHistoryId + 1
             else s.nextHistoryId } := by
  unfold update_board at h
  unfold boardById at hb
  simp only [hb] at h
  by_cases h1 : f.name = "" ∨ f.location_select = ""
  · rw [if_pos h1] at h
    exact UpdateResult.noConfusion h
  · rw [if_neg h1] at h
    by_cases h2 : (s.boards.any (fun b => b.name == f.name && b.id != bid)) = true
    · rw [if_pos h2] at h
      exact UpdateResult.noConfusion h
    · rw [if_neg h2] at h
      by_cases h3 : ((normSerial f.serial_number).isSome &&
          s.boards.any (fun b => b.serialNumber == normSerial f.serial_number && b.id != bid)) =
          true
      · rw [if_pos h3] at h
        exact UpdateResult.noConfusion h
      · rw [if_neg h3] at h
        simp only [UpdateResult.success.injEq] at h
        exact h.symm

theorem delete_board_found {s : Store} {bid : Nat} {board : Board}
    (hb : boardById s bid = some board) :
    delete_board s bid =
      some { s with boards := s.boards.filter (fun b => !(b.id == bid)),
                    histories := s.histories.filter (fun h => !(h.boardId == bid)) } := by
  unfold delete_board
  unfold boardById at hb
  rw [hb]

theorem delete_board_missing {s : Store} {bid : Nat}
    (hb : boardById s bid = none) : delete_board s bid = none := by
  unfold delete_board
  unfold boardById at hb
  rw [hb]

theorem bulkStep_found (newLoc updater now : String) (sc : Store × Nat) (bid : Nat)
    (board : Board) (hb : boardById sc.1 bid = some board) :
    bulkStep newLoc updater now sc bid =
      ({ boards := sc.1.boards.map (fun b =>
           if b.id == bid then { b with location := newLoc, user := updater, updatedAt := now }
           else b),
         histories :=
           if board.location ≠ newLoc ∨ board.user ≠ updater then
             sc.1.histories ++
               [{ id := sc.1.nextHistoryId, boardId := board.id,
                  previousLocation := board.location, newLocation := newLoc,
                  updatedBy := updater, updatedAt := now }]
           else sc.1.histories,
         nextBoardId := sc.1.nextBoardId,
         nextHistoryId :=
           if board.location ≠ newLoc ∨ board.user ≠ updater then sc.1.nextHistoryId + 1
           else sc.1.nextHistoryId },
       sc.2 + 1) := by
  unfold bulkStep
  unfold boardById at hb
  rw [hb]

theorem bulkStep_missing (newLoc updater now : String) (sc : Store × Nat) (bid : Nat)
    (hb : boardById sc.1 bid = none) : bulkStep newLoc updater now sc bid = sc := by
  unfold bulkStep
  unfold boardById at hb
  rw [hb]

/-! ### Claim C1 -/

/-- Claim C1: a successful `update_board` call appends exactly one
history entry if and only if the new location differs from the previous
location or the new custodian differs from the previous custodian
(exact string inequality); the appended entry records the board's
location before and after the call and the new custodian as its author. -/
theorem C1_update_audit (s : Store) (bid : Nat) (f : BoardForm) (u now : String)
    (s' : Store) (board board' : Board)
    (hsucc : update_board s bid f u now = .success s')
    (hb : boardById s bid = some board)
    (hb' : boardById s' bid = some board') :
    (s'.histories = s.histories ++
        [{ id := s.nextHistoryId, boardId := bid, previousLocation := board.location,
           newLocation := board'.location, updatedBy := u, updatedAt := now }] ↔
      (board'.location ≠ board.location ∨ u ≠ board.user)) ∧
    ((board'.location = board.location ∧ u = board.user) → s'.histories = s.histories) := by
  have hid : board.id = bid := (boardById_mem hb).2
  have hshape := update_board_success_shape hb hsucc
  subst hshape
  have hgid : ∀ b : Board,
      ((if b.id == bid then
          { b with name := f.name, serialNumber := normSerial f.serial_number,
                   notes := f.notes,
                   location := chosenLocation f.location_select f.location_other,
                   user := u, updatedAt := now }
        else b) : Board).id = b.id := by
    intro b
    by_cases hc : (b.id == bid) = true
    · simp [hc]
    · simp [hc]
  unfold boardById at hb hb'
  simp only at hb'
  rw [find?_map_preserve _ _ hgid, hb, Option.map_some'] at hb'
  injection hb' with hb'
  have hb'eq : board' =
      { board with name := f.name, serialNumber := normSerial f.serial_number,
                   notes := f.notes,
                   location := chosenLocation f.location_select f.location_other,
                   user := u, updatedAt := now } := by
    rw [← hb']
    simp [hid]
  subst hb'eq
  by_cases hm : board.location ≠ chosenLocation f.location_select f.location_other ∨
      board.user ≠ u
  · simp only [if_pos hm]
    refine ⟨⟨fun _ => ?_, fun _ => trivial⟩, fun hcon => ?_⟩
    · rcases hm with hml | hmu
      · exact .inl (Ne.symm hml)
      · exact .inr (Ne.symm hmu)
    · rcases hm with hml | hmu
      · exact absurd hcon.1.symm hml
      · exact absurd hcon.2.symm hmu
  · have hm' : board.location = chosenLocation f.location_select f.location_other ∧
        board.user = u := by
      push_neg at hm
      exact hm
    simp only [if_neg hm]
    refine ⟨⟨fun habs => ?_, fun hcon => ?_⟩, fun _ => trivial⟩
    · exact absurd habs (by simp)
    · rcases hcon with h | h
      · exact absurd hm'.1.symm h
      · exact absurd hm'.2.symm h

/-- Witness for C1: updating board 1 of `sAB` with `fUpd` as `bob`. -/
theorem C1_update_audit_witness :
    (sUpd.histories = sAB.histories ++
        [{ id := sAB.nextHistoryId, boardId := 1, previousLocation := bA.location,
           newLocation := bA9.location, updatedBy := "bob", updatedAt := "t3" }] ↔
      (bA9.location ≠ bA.location ∨ "bob" ≠ bA.user)) ∧
    ((bA9.location = bA.location ∧ "bob" = bA.user) → sUpd.histories = sAB.histories) :=
  C1_update_audit sAB 1 fUpd "bob" "t3" sUpd bA bA9 (by decide) (by decide) (by decide)

/-! ### Claim C3 (corrected) -/

/-- Counterexample to claim C3 as stated: with `location_select =
"その他"` and an empty `location_other`, `add_board` does not fail with
a validation error; it creates a board whose location is the empty
string. -/
theorem C3_counterexample :
    add_board initStore
        { name := "b1", serial_number := "", notes := "", location_select := "その他",
          location_other := "" } "u1" "t1" =
      .success { boards := [{ id := 1, name := "b1", serialNumber := none, location := "",
                              user := "u1", updatedAt := "t1", notes := "" }],
                 histories := [], nextBoardId := 2, nextHistoryId := 1 } := by
  decide

/-- Claim C3 (amended): `add_board` fails with a validation error
exactly when the submitted name or the submitted location selection is
empty, and then leaves the store unchanged; the location resulting from
the `"その他"` free-text mode is not validated. -/
theorem C3_create_validation (s : Store) (c : CreationMap) (f : BoardForm) (u now : String) :
    (add_board s f u now = .validationError ↔ (f.name = "" ∨ f.location_select = "")) ∧
    (add_board s f u now = .validationError → applyOp (s, c) (.add f u now) = (s, c)) := by
  refine ⟨?_, fun hv => by simp [applyOp, hv]⟩
  unfold add_board
  by_cases h1 : f.name = "" ∨ f.location_select = ""
  · simp [h1]
  · rw [if_neg h1]
    refine iff_of_false ?_ h1
    intro h
    by_cases h2 : (s.boards.any fun b => b.name == f.name) = true
    · rw [if_pos h2] at h
      exact AddResult.noConfusion h
    · rw [if_neg h2] at h
      by_cases h3 : ((normSerial f.serial_number).isSome &&
          s.boards.any fun b => b.serialNumber == normSerial f.serial_number) = true
      · rw [if_pos h3] at h
        exact AddResult.noConfusion h
      · rw [if_neg h3] at h
        exact AddResult.noConfusion h

/-! ### Claim C4 (corrected) -/

/-- Counterexample to claim C4 as stated: board 1 of `sAB` already sits
at location `L1`, yet a bulk update to `L1` by the different user `bob`
appends a history entry whose previous and new location are equal. -/
theorem C4_counterexample :
    bulk_update sAB [1] { location_select := "L1", location_other := "" } "bob" "t4" =
      some ({ boards := [{ id := 1, name := "alpha", serialNumber := none, location := "L1",
                           user := "bob", updatedAt := "t4", notes := "" }, bB],
              histories := [{ id := 1, boardId := 1, previousLocation := "L0",
                              newLocation := "L1", updatedBy := "alice",
                              updatedAt := "2024/01/01 00:00" },
                            { id := 2, boardId := 1, previousLocation := "L1",
                              newLocation := "L1", updatedBy := "bob", updatedAt := "t4" }],
              nextBoardId := 3, nextHistoryId := 3 }, 1) := by
  decide

/-- Claim C4 (amended): in the bulk-update loop a history entry is
appended for a found board if and only if its location differs from the
new location or its custodian differs from the updater — the same
dual-field rule as the single update, not a location-only rule. -/
theorem C4_bulk_audit (s : Store) (cnt : Nat) (bid : Nat) (newLoc updater now : String)
    (board : Board) (hb : boardById s bid = some board) :
    ((bulkStep newLoc updater now (s, cnt) bid).1.histories =
        s.histories ++
          [{ id := s.nextHistoryId, boardId := board.id, previousLocation := board.location,
             newLocation := newLoc, updatedBy := updater, updatedAt := now }] ↔
      (board.location ≠ newLoc ∨ board.user ≠ updater)) ∧
    (board.location = newLoc ∧ board.user = updater →
      (bulkStep newLoc updater now (s, cnt) bid).1.histories = s.histories) := by
  rw [bulkStep_found newLoc updater now (s, cnt) bid board hb]
  by_cases hm : board.location ≠ newLoc ∨ board.user ≠ updater
  · simp only [if_pos hm]
    refine ⟨⟨fun _ => hm, fun _ => trivial⟩, fun hcon => ?_⟩
    rcases hm with h | h
    · exact absurd hcon.1 h
    · exact absurd hcon.2 h
  · simp only [if_neg hm]
    exact ⟨⟨fun habs => absurd habs (by simp), fun hcon => absurd hcon hm⟩, fun _ => trivial⟩

/-- Witness for the amended C4 at a concrete bulk step. -/
theorem C4_bulk_audit_witness :
    ((bulkStep "L9" "bob" "t4" (sAB, 0) 1).1.histories =
        sAB.histories ++
          [{ id := sAB.nextHistoryId, boardId := bA.id, previousLocation := bA.location,
             newLocation := "L9", updatedBy := "bob", updatedAt := "t4" }] ↔
      (bA.location ≠ "L9" ∨ bA.user ≠ "bob")) ∧
    (bA.location = "L9" ∧ bA.user = "bob" →
      (bulkStep "L9" "bob" "t4" (sAB, 0) 1).1.histories = sAB.histories) :=
  C4_bulk_audit sAB 0 1 "L9" "bob" "t4" bA (by decide)

/-! ### Claim C6 -/

/-- Claim C6: creating a board whose (otherwise valid) name is already
taken fails with the name-conflict error and leaves the state
unchanged. -/
theorem C6_duplicate_name (s : Store) (c : CreationMap) (f : BoardForm) (u now : String)
    (hname : f.name ≠ "") (hsel : f.location_select ≠ "")
    (hdup : ∃ b ∈ s.boards, b.name = f.name) :
    add_board s f u now = .nameConflict ∧ applyOp (s, c) (.add f u now) = (s, c) := by
  have hval : ¬(f.name = "" ∨ f.location_select = "") := by
    push_neg
    exact ⟨hname, hsel⟩
  have hany : (s.boards.any fun b => b.name == f.name) = true := by
    rw [List.any_eq_true]
    rcases hdup with ⟨b, hbmem, hbname⟩
    exact ⟨b, hbmem, by simp [hbname]⟩
  have hres : add_board s f u now = .nameConflict := by
    unfold add_board
    rw [if_neg hval, if_pos hany]
  refine ⟨hres, ?_⟩
  simp [applyOp, hres]

/-- Witness for C6: re-creating name `alpha` in `sAB`. -/
theorem C6_duplicate_name_witness :
    add_board sAB fDup "bob" "t9" = .nameConflict ∧
    applyOp (sAB, cEmpty) (.add fDup "bob" "t9") = (sAB, cEmpty) :=
  C6_duplicate_name sAB cEmpty fDup "bob" "t9" (by decide) (by decide)
    ⟨bA, by decide, by decide⟩

/-! ### Claim C7 -/

theorem history_eq_none {s : Store} {bid : Nat} (h : boardById s bid = none) :
    history s bid = none := by
  unfold history
  unfold boardById at h
  rw [h]

theorem boardById_filter_self (s : Store) (bid : Nat) :
    boardById { s with boards := s.boards.filter (fun b => !(b.id == bid)),
                       histories := s.histories.filter (fun h => !(h.boardId == bid)) } bid =
      none := by
  unfold boardById
  rw [List.find?_eq_none]
  intro x hx
  have hx2 := (List.mem_filter.mp hx).2
  simpa using hx2

/-- Claim C7: deleting an existing board removes the board and every
history entry referencing it, after which the history page for that id
reports 404; deleting a missing id reports 404 as well. -/
theorem C7_delete_cascade (s : Store) (bid : Nat) :
    (∀ board, boardById s bid = some board →
      ∃ s', delete_board s bid = some s' ∧
        boardById s' bid = none ∧
        (∀ h ∈ s'.histories, h.boardId ≠ bid) ∧
        history s' bid = none) ∧
    (boardById s bid = none → delete_board s bid = none) := by
  constructor
  · intro board hb
    refine ⟨_, delete_board_found hb, boardById_filter_self s bid, ?_,
      history_eq_none (boardById_filter_self s bid)⟩
    intro h hh
    have hh2 := (List.mem_filter.mp hh).2
    simpa using hh2
  · intro hb
    exact delete_board_missing hb

/-- Witness for C7: deleting board 1 of `sAB`, and a missing id 99. -/
theorem C7_delete_cascade_witness :
    (∃ s', delete_board sAB 1 = some s' ∧
        boardById s' 1 = none ∧
        (∀ h ∈ s'.histories, h.boardId ≠ 1) ∧
        history s' 1 = none) ∧
    delete_board sAB 99 = none :=
  ⟨(C7_delete_cascade sAB 1).1 bA (by decide), (C7_delete_cascade sAB 99).2 (by decide)⟩

/-! ### Claim C8 -/

/-- Claim C8: the listing is a permutation of the boards; with sort key
`name` it is ordered by name, descending exactly when the order value
is `desc`; any other sort key yields ascending order by id. -/
theorem C8_listing_order (s : Store) (sort_by order : String) :
    (index s sort_by order).Perm s.boards ∧
    (sort_by = "name" → order = "desc" → (index s sort_by order).Sorted nameDesc) ∧
    (sort_by = "name" → order ≠ "desc" → (index s sort_by order).Sorted nameAsc) ∧
    (sort_by ≠ "name" → (index s sort_by order).Sorted idAsc) := by
  unfold index
  by_cases h1 : sort_by = "name"
  · by_cases h2 : order = "desc"
    · simp only [if_pos h1, if_pos h2]
      exact ⟨List.perm_insertionSort _ _, fun _ _ => List.sorted_insertionSort _ _,
             fun _ hne => absurd h2 hne, fun hne => absurd h1 hne⟩
    · simp only [if_pos h1, if_neg h2]
      exact ⟨List.perm_insertionSort _ _, fun _ hd => absurd hd h2,
             fun _ _ => List.sorted_insertionSort _ _, fun hne => absurd h1 hne⟩
  · simp only [if_neg h1]
    exact ⟨List.perm_insertionSort _ _, fun hn => absurd hn h1, fun hn => absurd hn h1,
           fun _ => List.sorted_insertionSort _ _⟩

/-- Witness for C8 at the three argument combinations. -/
theorem C8_listing_order_witness :
    (index sAB "name" "desc").Sorted nameDesc ∧ (index sAB "name" "asc").Sorted nameAsc ∧
    (index sAB "id" "asc").Sorted idAsc :=
  ⟨(C8_listing_order sAB "name" "desc").2.1 rfl rfl,
   (C8_listing_order sAB "name" "asc").2.2.1 rfl (by decide),
   (C8_listing_order sAB "id" "asc").2.2.2 (by decide)⟩

/-! ### Bulk-update loop lemmas -/

theorem isSome_map_eq {α β : Type} (f : α → β) (o : Option α) :
    (o.map f).isSome = o.isSome := by
  cases o <;> rfl

theorem bulk_upd_id (newLoc updater now : String) (bid : Nat) : ∀ b : Board,
    ((if b.id == bid then { b with location := newLoc, user := updater, updatedAt := now }
      else b) : Board).id = b.id := by
  intro b
  by_cases hc : (b.id == bid) = true
  · simp [hc]
  · simp [hc]

theorem bulkStep_keeps_existence (newLoc updater now : String) (sc : Store × Nat)
    (bid i : Nat) :
    (boardById (bulkStep newLoc updater now sc bid).1 i).isSome =
      (boardById sc.1 i).isSome := by
  cases hb : boardById sc.1 bid with
  | none => rw [bulkStep_missing _ _ _ _ _ hb]
  | some board =>
      rw [bulkStep_found _ _ _ _ _ board hb]
      unfold boardById
      show ((sc.1.boards.map _).find? _).isSome = _
      rw [find?_map_preserve _ _ (bulk_upd_id newLoc updater now bid)]
      exact isSome_map_eq _ _

theorem bulkRun_keeps_existence (newLoc updater now : String) (ids : List Nat) :
    ∀ (sc : Store × Nat) (i : Nat),
      (boardById (bulkRun newLoc updater now ids sc).1 i).isSome =
        (boardById sc.1 i).isSome := by
  induction ids with
  | nil => intro sc i; rfl
  | cons j rest ih =>
      intro sc i
      exact (ih (bulkStep newLoc updater now sc j) i).trans
        (bulkStep_keeps_existence newLoc updater now sc j i)

theorem bulkRun_count (newLoc updater now : String) (ids : List Nat) :
    ∀ (s : Store) (cnt : Nat),
      (bulkRun newLoc updater now ids (s, cnt)).2 =
        cnt + (ids.filter (fun i => (boardById s i).isSome)).length := by
  induction ids with
  | nil =>
      intro s cnt
      simp [bulkRun]
  | cons i rest ih =>
      intro s cnt
      show (bulkRun newLoc updater now rest (bulkStep newLoc updater now (s, cnt) i)).2 = _
      cases hb : boardById s i with
      | none =>
          have hb' : boardById (s, cnt).1 i = none := hb
          rw [bulkStep_missing _ _ _ _ _ hb', ih s cnt]
          have hf : (i :: rest).filter (fun j => (boardById s j).isSome) =
              rest.filter (fun j => (boardById s j).isSome) := by
            rw [List.filter_cons]
            simp [hb]
          rw [hf]
      | some board =>
          have hpair : bulkStep newLoc updater now (s, cnt) i =
              ((bulkStep newLoc updater now (s, cnt) i).1,
               (bulkStep newLoc updater now (s, cnt) i).2) := rfl
          rw [hpair, ih]
          have hfc : rest.filter (fun j =>
                (boardById (bulkStep newLoc updater now (s, cnt) i).1 j).isSome) =
              rest.filter (fun j => (boardById s j).isSome) :=
            List.filter_congr
              (fun j _ => bulkStep_keeps_existence newLoc updater now (s, cnt) i j)
          rw [hfc]
          have hb' : boardById (s, cnt).1 i = some board := hb
          have hcnt : (bulkStep newLoc updater now (s, cnt) i).2 = cnt + 1 := by
            rw [bulkStep_found _ _ _ _ _ board hb']
          rw [hcnt]
          have hf : (i :: rest).filter (fun j => (boardById s j).isSome) =
              i :: rest.filter (fun j => (boardById s j).isSome) := by
            rw [List.filter_cons]
            simp [hb]
          rw [hf]
          simp [List.length_cons]
          omega

theorem bulkStep_boards (newLoc updater now : String) (sc : Store × Nat) (bid : Nat)
    (board : Board) (hb : boardById sc.1 bid = some board) :
    (bulkStep newLoc updater now sc bid).1.boards =
      sc.1.boards.map (fun b =>
        if b.id == bid then { b with location := newLoc, user := updater, updatedAt := now }
        else b) := by
  rw [bulkStep_found _ _ _ _ _ board hb]

theorem bulkStep_histories (newLoc updater now : String) (sc : Store × Nat) (bid : Nat)
    (board : Board) (hb : boardById sc.1 bid = some board) :
    (bulkStep newLoc updater now sc bid).1.histories =
      if board.location ≠ newLoc ∨ board.user ≠ updater then
        sc.1.histories ++
          [{ id := sc.1.nextHistoryId, boardId := board.id,
             previousLocation := board.location, newLocation := newLoc,
             updatedBy := updater, updatedAt := now }]
      else sc.1.histories := by
  rw [bulkStep_found _ _ _ _ _ board hb]

theorem bulkStep_sets_target (newLoc updater now : String) (sc : Store × Nat) (bid : Nat)
    (board : Board) (hb : boardById sc.1 bid = some board) :
    ∀ b, boardById (bulkStep newLoc updater now sc bid).1 bid = some b →
      b.location = newLoc ∧ b.user = updater ∧ b.updatedAt = now := by
  intro b hb2
  have hid : board.id = bid := (boardById_mem hb).2
  unfold boardById at hb2
  rw [bulkStep_boards _ _ _ _ _ board hb] at hb2
  unfold boardById at hb
  rw [find?_map_preserve _ _ (bulk_upd_id newLoc updater now bid), hb,
    Option.map_some'] at hb2
  injection hb2 with hb2
  rw [if_pos (show (board.id == bid) = true by simp [hid])] at hb2
  subst hb2
  exact ⟨rfl, rfl, rfl⟩

theorem bulkStep_keeps_target (newLoc updater now : String) (sc : Store × Nat) (bid i : Nat)
    (h : ∀ b, boardById sc.1 i = some b →
        b.location = newLoc ∧ b.user = updater ∧ b.updatedAt = now) :
    ∀ b, boardById (bulkStep newLoc updater now sc bid).1 i = some b →
      b.location = newLoc ∧ b.user = updater ∧ b.updatedAt = now := by
  intro b hb2
  cases hfind : boardById sc.1 bid with
  | none =>
      rw [bulkStep_missing _ _ _ _ _ hfind] at hb2
      exact h b hb2
  | some board =>
      unfold boardById at hb2 h
      rw [bulkStep_boards _ _ _ _ _ board hfind] at hb2
      rw [find?_map_preserve _ _ (bulk_upd_id newLoc updater now bid)] at hb2
      cases hx : sc.1.boards.find? (fun b => b.id == i) with
      | none =>
          rw [hx] at hb2
          exact Option.noConfusion hb2
      | some a =>
          rw [hx, Option.map_some'] at hb2
          injection hb2 with hb2
          by_cases hc : (a.id == bid) = true
          · rw [if_pos hc] at hb2
            subst hb2
            exact ⟨rfl, rfl, rfl⟩
          · rw [if_neg hc] at hb2
            subst hb2
            exact h a hx

theorem bulkRun_keeps_target (newLoc updater now : String) (ids : List Nat) :
    ∀ (sc : Store × Nat) (i : Nat),
      (∀ b, boardById sc.1 i = some b →
        b.location = newLoc ∧ b.user = updater ∧ b.updatedAt = now) →
      ∀ b, boardById (bulkRun newLoc updater now ids sc).1 i = some b →
        b.location = newLoc ∧ b.user = updater ∧ b.updatedAt = now := by
  induction ids with
  | nil => intro sc i h b hb; exact h b hb
  | cons j rest ih =>
      intro sc i h b hb
      exact ih (bulkStep newLoc updater now sc j) i
        (bulkStep_keeps_target newLoc updater now sc j i h) b hb

theorem bulkRun_reaches_target (newLoc updater now : String) (ids : List Nat) :
    ∀ (sc : Store × Nat), ∀ i ∈ ids, ∀ b, boardById sc.1 i = some b →
      ∀ b', boardById (bulkRun newLoc updater now ids sc).1 i = some b' →
        b'.location = newLoc ∧ b'.user = updater ∧ b'.updatedAt = now := by
  induction ids with
  | nil =>
      intro sc i hi
      cases hi
  | cons j rest ih =>
      intro sc i hi b hb b' hb'
      rcases List.mem_cons.mp hi with heq | hmem
      · subst heq
        exact bulkRun_keeps_target newLoc updater now rest
          (bulkStep newLoc updater now sc i) i
          (bulkStep_sets_target newLoc updater now sc i b hb) b' hb'
      · have hex : (boardById (bulkStep newLoc updater now sc j).1 i).isSome = true := by
          rw [bulkStep_keeps_existence, hb]
          rfl
        obtain ⟨b₂, hb₂⟩ := Option.isSome_iff_exists.mp hex
        exact ih (bulkStep newLoc updater now sc j) i hmem b₂ hb₂ b' hb'

theorem bulkRun_new_entries (newLoc updater now : String) (ids : List Nat) :
    ∀ (sc : Store × Nat) (e : UpdateHistory),
      e ∈ (bulkRun newLoc updater now ids sc).1.histories →
      e ∈ sc.1.histories ∨ (e.updatedBy = updater ∧ e.updatedAt = now) := by
  induction ids with
  | nil => intro sc e he; exact .inl he
  | cons j rest ih =>
      intro sc e he
      rcases ih (bulkStep newLoc updater now sc j) e he with h1 | h2
      · cases hb : boardById sc.1 j with
        | none =>
            rw [bulkStep_missing _ _ _ _ _ hb] at h1
            exact .inl h1
        | some board =>
            rw [bulkStep_histories _ _ _ _ _ board hb] at h1
            by_cases hm : board.location ≠ newLoc ∨ board.user ≠ updater
            · rw [if_pos hm] at h1
              rcases List.mem_append.mp h1 with h3 | h3
              · exact .inl h3
              · right
                rw [List.mem_singleton] at h3
                subst h3
                exact ⟨rfl, rfl⟩
            · rw [if_neg hm] at h1
              exact .inl h1
      · exact .inr h2

/-! ### Claim C5 -/

/-- Claim C5: over a non-empty id set, bulk update raises no error,
silently skips ids that reference no board, sets the location,
custodian and timestamp of every existing board in the set, and
reports exactly the number of existing boards. -/
theorem C5_bulk_partial (s : Store) (ids : List Nat) (f : BulkForm) (u now : String)
    (hne : ids ≠ []) (_hnd : ids.Nodup) :
    ∃ s' cnt, bulk_update s ids f u now = some (s', cnt) ∧
      cnt = (ids.filter (fun i => (boardById s i).isSome)).length ∧
      ∀ i ∈ ids, ∀ b, boardById s i = some b →
        ∃ b', boardById s' i = some b' ∧
          b'.location = chosenLocation f.location_select f.location_other ∧
          b'.user = u ∧ b'.updatedAt = now := by
  refine ⟨(bulkRun (chosenLocation f.location_select f.location_other) u now ids (s, 0)).1,
          (bulkRun (chosenLocation f.location_select f.location_other) u now ids (s, 0)).2,
          ?_, ?_, ?_⟩
  · unfold bulk_update
    rw [if_neg hne]
  · rw [bulkRun_count]
    simp
  · intro i hi b hb
    have hex : (boardById
        (bulkRun (chosenLocation f.location_select f.location_other) u now ids
          (s, 0)).1 i).isSome = true := by
      rw [bulkRun_keeps_existence]
      show (boardById s i).isSome = true
      rw [hb]
      rfl
    obtain ⟨b', hb'⟩ := Option.isSome_iff_exists.mp hex
    exact ⟨b', hb', bulkRun_reaches_target _ u now ids (s, 0) i hi b hb b' hb'⟩

/-- Witness for C5: bulk update of boards 1 and 2 plus ghost id 99. -/
theorem C5_bulk_partial_witness :
    ∃ s' cnt, bulk_update sAB [1, 2, 99] fBulk "bob" "t3" = some (s', cnt) ∧
      cnt = (([1, 2, 99] : List Nat).filter (fun i => (boardById sAB i).isSome)).length ∧
      ∀ i ∈ ([1, 2, 99] : List Nat), ∀ b, boardById sAB i = some b →
        ∃ b', boardById s' i = some b' ∧
          b'.location = chosenLocation fBulk.location_select fBulk.location_other ∧
          b'.user = "bob" ∧ b'.updatedAt = "t3" :=
  C5_bulk_partial sAB [1, 2, 99] fBulk "bob" "t3" (by decide) (by decide)

/-! ### Claim C9 -/

/-- Claim C9: one bulk call stamps every board it touches and every
history entry it writes with the single timestamp computed before the
per-board loop. -/
theorem C9_bulk_single_timestamp (s : Store) (ids : List Nat) (f : BulkForm) (u now : String)
    (s' : Store) (cnt : Nat) (h : bulk_update s ids f u now = some (s', cnt)) :
    (∀ i ∈ ids, ∀ b, boardById s i = some b →
      ∃ b', boardById s' i = some b' ∧ b'.updatedAt = now) ∧
    (∀ e ∈ s'.histories, e ∉ s.histories → e.updatedAt = now) := by
  unfold bulk_update at h
  by_cases hne : ids = []
  · rw [if_pos hne] at h
    exact Option.noConfusion h
  · rw [if_neg hne] at h
    injection h with h
    have hs' : (bulkRun (chosenLocation f.location_select f.location_other) u now ids
        (s, 0)).1 = s' := by
      rw [h]
    constructor
    · intro i hi b hb
      have hex : (boardById s' i).isSome = true := by
        rw [← hs', bulkRun_keeps_existence]
        show (boardById s i).isSome = true
        rw [hb]
        rfl
      obtain ⟨b', hb'⟩ := Option.isSome_iff_exists.mp hex
      refine ⟨b', hb', ?_⟩
      have hb'2 : boardById (bulkRun (chosenLocation f.location_select f.location_other)
          u now ids (s, 0)).1 i = some b' := by
        rw [hs']
        exact hb'
      exact (bulkRun_reaches_target _ u now ids (s, 0) i hi b hb b' hb'2).2.2
    · intro e he hnot
      have he2 : e ∈ (bulkRun (chosenLocation f.location_select f.location_other) u now ids
          (s, 0)).1.histories := by
        rw [hs']
        exact he
      rcases bulkRun_new_entries _ u now ids (s, 0) e he2 with h1 | h2
      · exact absurd h1 hnot
      · exact h2.2

/-- Witness for C9 at the sample bulk call. -/
theorem C9_bulk_single_timestamp_witness :
    (∀ i ∈ ([1, 2, 99] : List Nat), ∀ b, boardById sAB i = some b →
      ∃ b', boardById sBulk i = some b' ∧ b'.updatedAt = "t3") ∧
    (∀ e ∈ sBulk.histories, e ∉ sAB.histories → e.updatedAt = "t3") :=
  C9_bulk_single_timestamp sAB [1, 2, 99] fBulk "bob" "t3" sBulk 2 (by decide)

/-! ### Claim C10 -/

theorem upd_id (f : BoardForm) (u now : String) (bid : Nat) : ∀ b : Board,
    ((if b.id == bid then
        { b with name := f.name, serialNumber := normSerial f.serial_number,
                 notes := f.notes,
                 location := chosenLocation f.location_select f.location_other,
                 user := u, updatedAt := now }
      else b) : Board).id = b.id := by
  intro b
  by_cases hc : (b.id == bid) = true
  · simp [hc]
  · simp [hc]

theorem update_board_missing {s : Store} {bid : Nat} {f : BoardForm} {u now : String}
    (h : boardById s bid = none) : update_board s bid f u now = .notFound := by
  unfold update_board
  unfold boardById at h
  rw [h]

theorem update_board_success_board {s : Store} {bid : Nat} {f : BoardForm} {u now : String}
    {s' : Store} {board : Board}
    (hb : boardById s bid = some board)
    (h : update_board s bid f u now = .success s') :
    boardById s' bid =
      some { board with name := f.name,
                        serialNumber := normSerial f.serial_number, notes := f.notes,
                        location := chosenLocation f.location_select f.location_other,
                        user := u, updatedAt := now } := by
  have hid : board.id = bid := (boardById_mem hb).2
  have hshape := update_board_success_shape hb h
  subst hshape
  unfold boardById at hb ⊢
  show (s.boards.map _).find? _ = _
  rw [find?_map_preserve _ _ (upd_id f u now bid), hb, Option.map_some']
  rw [if_pos (show (board.id == bid) = true by simp [hid])]

theorem update_board_success_histories {s : Store} {bid : Nat} {f : BoardForm}
    {u now : String} {s' : Store} {board : Board}
    (hb : boardById s bid = some board)
    (h : update_board s bid f u now = .success s') :
    s'.histories =
      if board.location ≠ chosenLocation f.location_select f.location_other ∨
          board.user ≠ u then
        s.histories ++
          [{ id := s.nextHistoryId, boardId := bid, previousLocation := board.location,
             newLocation := chosenLocation f.location_select f.location_other,
             updatedBy := u, updatedAt := now }]
      else s.histories := by
  rw [update_board_success_shape hb h]

/-- Claim C10: a successful single update or bulk update always records
the acting user as the board's custodian and as the author of any
history entry it writes. -/
theorem C10_actor_attribution (s : Store) (bid : Nat) (f : BoardForm) (ids : List Nat)
    (g : BulkForm) (u now : String) :
    (∀ s', update_board s bid f u now = .success s' →
      (∀ b', boardById s' bid = some b' → b'.user = u) ∧
      (∀ e ∈ s'.histories, e ∉ s.histories → e.updatedBy = u)) ∧
    (∀ s' cnt, bulk_update s ids g u now = some (s', cnt) →
      (∀ i ∈ ids, ∀ b, boardById s i = some b →
        ∃ b', boardById s' i = some b' ∧ b'.user = u) ∧
      (∀ e ∈ s'.histories, e ∉ s.histories → e.updatedBy = u)) := by
  constructor
  · intro s' hsucc
    cases hb : boardById s bid with
    | none =>
        rw [update_board_missing hb] at hsucc
        exact UpdateResult.noConfusion hsucc
    | some board =>
        constructor
        · intro b' hb'
          rw [update_board_success_board hb hsucc] at hb'
          injection hb' with hb'
          rw [← hb']
        · intro e he hnot
          rw [update_board_success_histories hb hsucc] at he
          by_cases hm : board.location ≠ chosenLocation f.location_select f.location_other ∨
              board.user ≠ u
          · rw [if_pos hm] at he
            rcases List.mem_append.mp he with h3 | h3
            · exact absurd h3 hnot
            · rw [List.mem_singleton] at h3
              subst h3
              rfl
          · rw [if_neg hm] at he
            exact absurd he hnot
  · intro s' cnt hbulk
    unfold bulk_update at hbulk
    by_cases hne : ids = []
    · rw [if_pos hne] at hbulk
      exact Option.noConfusion hbulk
    · rw [if_neg hne] at hbulk
      injection hbulk with hbulk
      have hs' : (bulkRun (chosenLocation g.location_select g.location_other) u now ids
          (s, 0)).1 = s' := by
        rw [hbulk]
      constructor
      · intro i hi b hb
        have hex : (boardById s' i).isSome = true := by
          rw [← hs', bulkRun_keeps_existence]
          show (boardById s i).isSome = true
          rw [hb]
          rfl
        obtain ⟨b', hb'⟩ := Option.isSome_iff_exists.mp hex
        refine ⟨b', hb', ?_⟩
        have hb'2 : boardById (bulkRun (chosenLocation g.location_select g.location_other)
            u now ids (s, 0)).1 i = some b' := by
          rw [hs']
          exact hb'
        exact (bulkRun_reaches_target _ u now ids (s, 0) i hi b hb b' hb'2).2.1
      · intro e he hnot
        have he2 : e ∈ (bulkRun (chosenLocation g.location_select g.location_other) u now
            ids (s, 0)).1.histories := by
          rw [hs']
          exact he
        rcases bulkRun_new_entries _ u now ids (s, 0) e he2 with h1 | h2
        · exact absurd h1 hnot
        · exact h2.1

/-- Witness for C10: the sample update and the sample bulk update. -/
theorem C10_actor_attribution_witness :
    ((∀ b', boardById sUpd 1 = some b' → b'.user = "bob") ∧
     (∀ e ∈ sUpd.histories, e ∉ sAB.histories → e.updatedBy = "bob")) ∧
    ((∀ i ∈ ([1, 2, 99] : List Nat), ∀ b, boardById sAB i = some b →
        ∃ b', boardById sBulk i = some b' ∧ b'.user = "bob") ∧
     (∀ e ∈ sBulk.histories, e ∉ sAB.histories → e.updatedBy = "bob")) :=
  ⟨(C10_actor_attribution sAB 1 fUpd [1, 2, 99] fBulk "bob" "t3").1 sUpd (by decide),
   (C10_actor_attribution sAB 1 fUpd [1, 2, 99] fBulk "bob" "t3").2 sBulk 2 (by decide)⟩

/-! ### Preservation of the audit-trail invariant (claim C2) -/

theorem maxEntryFor_congr {s s' : Store} (h : s.histories = s'.histories) (bid : Nat) :
    maxEntryFor s bid = maxEntryFor s' bid := by
  unfold maxEntryFor
  rw [h]

theorem add_preserves {s : Store} {c : CreationMap} {f : BoardForm} {u now : String}
    {s' : Store}
    (hwf : WF s) (hcons : Consistent s c)
    (h : add_board s f u now = .success s') :
    WF s' ∧ Consistent s'
      (fun i => if i = s.nextBoardId then
          some (chosenLocation f.location_select f.location_other, u) else c i) := by
  obtain ⟨hval, hnoname, hshape⟩ := add_board_success_shape h
  subst hshape
  obtain ⟨hwf1, hwf2, hwf3, hwf4⟩ := hwf
  constructor
  · refine ⟨?_, ?_, ?_, ?_⟩
    · intro b hbmem
      rcases List.mem_append.mp hbmem with hmem | hmem
      · exact Nat.lt_succ_of_lt (hwf1 b hmem)
      · rw [List.mem_singleton] at hmem
        subst hmem
        exact Nat.lt_succ_self _
    · intro e hmem
      exact hwf2 e hmem
    · intro e hmem
      obtain ⟨b, hb1, hb2⟩ := hwf3 e hmem
      exact ⟨b, List.mem_append_left _ hb1, hb2⟩
    · rw [List.map_append, List.nodup_append]
      refine ⟨hwf4, by simp, ?_⟩
      intro x hx hy
      simp only [List.map_cons, List.map_nil, List.mem_singleton] at hy
      subst hy
      obtain ⟨b, hbmem, hbid⟩ := List.mem_map.mp hx
      have hlt := hwf1 b hbmem
      omega
  · intro b hbmem
    rcases List.mem_append.mp hbmem with hmem | hmem
    · have hne : b.id ≠ s.nextBoardId := by
        have hlt := hwf1 b hmem
        omega
      obtain ⟨hc1, hc2⟩ := hcons b hmem
      refine ⟨fun e he => hc1 e he, fun hnone => ?_⟩
      have hgoal := hc2 hnone
      simpa [hne] using hgoal
    · rw [List.mem_singleton] at hmem
      subst hmem
      have hnoentry : maxEntryOf s.histories s.nextBoardId = none := by
        apply maxEntryOf_none_of_not_mem
        intro x hx
        obtain ⟨b2, hb2mem, hb2id⟩ := hwf3 x hx
        have hlt := hwf1 b2 hb2mem
        rw [← hb2id]
        omega
      refine ⟨fun e he => ?_, fun _ => ?_⟩
      · have he2 : maxEntryOf s.histories s.nextBoardId = some e := he
        rw [hnoentry] at he2
        exact Option.noConfusion he2
      · simp

theorem delete_preserves {s : Store} {c : CreationMap} {bid : Nat} {s' : Store}
    (hwf : WF s) (hcons : Consistent s c)
    (h : delete_board s bid = some s') :
    WF s' ∧ Consistent s' c := by
  cases hb : boardById s bid with
  | none =>
      rw [delete_board_missing hb] at h
      exact Option.noConfusion h
  | some board =>
      rw [delete_board_found hb] at h
      injection h with h
      subst h
      obtain ⟨hwf1, hwf2, hwf3, hwf4⟩ := hwf
      constructor
      · refine ⟨?_, ?_, ?_, ?_⟩
        · intro b hbmem
          exact hwf1 b (List.mem_filter.mp hbmem).1
        · intro e hmem
          exact hwf2 e (List.mem_filter.mp hmem).1
        · intro e hmem
          obtain ⟨hmem1, hmem2⟩ := List.mem_filter.mp hmem
          obtain ⟨b2, hb2mem, hb2id⟩ := hwf3 e hmem1
          refine ⟨b2, List.mem_filter.mpr ⟨hb2mem, ?_⟩, hb2id⟩
          simp only [Bool.not_eq_eq_eq_not, Bool.not_true, beq_eq_false_iff_ne] at hmem2 ⊢
          rw [hb2id]
          exact hmem2
        · exact List.Nodup.sublist (List.Sublist.map Board.id (List.filter_sublist _)) hwf4
      · intro b hbmem
        obtain ⟨hmem1, hmem2⟩ := List.mem_filter.mp hbmem
        have hneq : b.id ≠ bid := by
          simpa using hmem2
        have hmax : maxEntryFor { s with
            boards := s.boards.filter (fun x => !(x.id == bid)),
            histories := s.histories.filter (fun x => !(x.boardId == bid)) } b.id =
            maxEntryFor s b.id :=
          maxEntryOf_filter_ne s.histories bid b.id hneq
        obtain ⟨hc1, hc2⟩ := hcons b hmem1
        refine ⟨fun e he => ?_, fun hnone => ?_⟩
        · rw [hmax] at he
          exact hc1 e he
        · rw [hmax] at hnone
          exact hc2 hnone

theorem update_preserves {s : Store} {c : CreationMap} {bid : Nat} {f : BoardForm}
    {u now : String} {s' : Store}
    (hwf : WF s) (hcons : Consistent s c)
    (h : update_board s bid f u now = .success s') :
    WF s' ∧ Consistent s' c := by
  cases hb : boardById s bid with
  | none =>
      rw [update_board_missing hb] at h
      exact UpdateResult.noConfusion h
  | some board =>
      have hid : board.id = bid := (boardById_mem hb).2
      have hbmem : board ∈ s.boards := (boardById_mem hb).1
      have hshape := update_board_success_shape hb h
      subst hshape
      obtain ⟨hwf1, hwf2, hwf3, hwf4⟩ := hwf
      by_cases hm : board.location ≠ chosenLocation f.location_select f.location_other ∨
          board.user ≠ u
      · simp only [if_pos hm]
        constructor
        · refine ⟨?_, ?_, ?_, ?_⟩
          · intro b' hb'mem
            obtain ⟨b, hbmem2, hgb⟩ := List.mem_map.mp hb'mem
            subst hgb
            rw [upd_id f u now bid b]
            exact hwf1 b hbmem2
          · intro e hmem
            rcases List.mem_append.mp hmem with h1 | h1
            · exact Nat.lt_succ_of_lt (hwf2 e h1)
            · rw [List.mem_singleton] at h1
              subst h1
              exact Nat.lt_succ_self _
          · intro e hmem
            rcases List.mem_append.mp hmem with h1 | h1
            · obtain ⟨b2, hb2mem, hb2id⟩ := hwf3 e h1
              refine ⟨_, List.mem_map_of_mem _ hb2mem, ?_⟩
              rw [upd_id f u now bid b2]
              exact hb2id
            · rw [List.mem_singleton] at h1
              subst h1
              refine ⟨_, List.mem_map_of_mem _ hbmem, ?_⟩
              rw [upd_id f u now bid board]
              exact hid
          · exact nodup_ids_map s.boards _ (upd_id f u now bid) hwf4
        · intro b' hb'mem
          obtain ⟨b, hbmem2, hgb⟩ := List.mem_map.mp hb'mem
          subst hgb
          by_cases hcid : (b.id == bid) = true
          · have hbid2 : b.id = bid := by simpa using hcid
            have hbeq : b = board := nodup_ids_inj hwf4 hbmem2 hbmem (by rw [hbid2, hid])
            subst hbeq
            rw [if_pos hcid]
            have hmaxU : maxEntryOf (s.histories ++
                [{ id := s.nextHistoryId, boardId := bid,
                   previousLocation := b.location,
                   newLocation := chosenLocation f.location_select f.location_other,
                   updatedBy := u, updatedAt := now }]) b.id =
                some { id := s.nextHistoryId, boardId := bid,
                       previousLocation := b.location,
                       newLocation := chosenLocation f.location_select f.location_other,
                       updatedBy := u, updatedAt := now } := by
              rw [hbid2]
              exact maxEntryOf_append_self s.histories _ bid rfl (fun x hx => hwf2 x hx)
            refine ⟨fun e he => ?_, fun hnone => ?_⟩
            · have he2 : maxEntryOf (s.histories ++
                  [{ id := s.nextHistoryId, boardId := bid,
                     previousLocation := b.location,
                     newLocation := chosenLocation f.location_select f.location_other,
                     updatedBy := u, updatedAt := now }]) b.id = some e := he
              rw [hmaxU] at he2
              injection he2 with he2
              subst he2
              exact ⟨rfl, rfl⟩
            · have hn2 : maxEntryOf (s.histories ++
                  [{ id := s.nextHistoryId, boardId := bid,
                     previousLocation := b.location,
                     newLocation := chosenLocation f.location_select f.location_other,
                     updatedBy := u, updatedAt := now }]) b.id = none := hnone
              rw [hmaxU] at hn2
              exact Option.noConfusion hn2
          · have hne : b.id ≠ bid := by simpa using hcid
            rw [if_neg hcid]
            have hmaxU : maxEntryOf (s.histories ++
                [{ id := s.nextHistoryId, boardId := bid,
                   previousLocation := board.location,
                   newLocation := chosenLocation f.location_select f.location_other,
                   updatedBy := u, updatedAt := now }]) b.id =
                maxEntryOf s.histories b.id :=
              maxEntryOf_append_ne s.histories _ b.id (Ne.symm hne)
            obtain ⟨hc1, hc2⟩ := hcons b hbmem2
            refine ⟨fun e he => ?_, fun hnone => ?_⟩
            · have he2 : maxEntryOf (s.histories ++
                  [{ id := s.nextHistoryId, boardId := bid,
                     previousLocation := board.location,
                     newLocation := chosenLocation f.location_select f.location_other,
                     updatedBy := u, updatedAt := now }]) b.id = some e := he
              rw [hmaxU] at he2
              exact hc1 e he2
            · have hn2 : maxEntryOf (s.histories ++
                  [{ id := s.nextHistoryId, boardId := bid,
                     previousLocation := board.location,
                     newLocation := chosenLocation f.location_select f.location_other,
                     updatedBy := u, updatedAt := now }]) b.id = none := hnone
              rw [hmaxU] at hn2
              exact hc2 hn2
      · have hm' : board.location = chosenLocation f.location_select f.location_other ∧
            board.user = u := by
          push_neg at hm
          exact hm
        simp only [if_neg hm]
        constructor
        · refine ⟨?_, ?_, ?_, ?_⟩
          · intro b' hb'mem
            obtain ⟨b, hbmem2, hgb⟩ := List.mem_map.mp hb'mem
            subst hgb
            rw [upd_id f u now bid b]
            exact hwf1 b hbmem2
          · intro e hmem
            exact hwf2 e hmem
          · intro e hmem
            obtain ⟨b2, hb2mem, hb2id⟩ := hwf3 e hmem
            refine ⟨_, List.mem_map_of_mem _ hb2mem, ?_⟩
            rw [upd_id f u now bid b2]
            exact hb2id
          · exact nodup_ids_map s.boards _ (upd_id f u now bid) hwf4
        · intro b' hb'mem
          obtain ⟨b, hbmem2, hgb⟩ := List.mem_map.mp hb'mem
          subst hgb
          by_cases hcid : (b.id == bid) = true
          · have hbid2 : b.id = bid := by simpa using hcid
            have hbeq : b = board := nodup_ids_inj hwf4 hbmem2 hbmem (by rw [hbid2, hid])
            subst hbeq
            rw [if_pos hcid]
            obtain ⟨hc1, hc2⟩ := hcons b hbmem2
            refine ⟨fun e he => ?_, fun hnone => ?_⟩
            · have he2 : maxEntryOf s.histories b.id = some e := he
              have hres := hc1 e he2
              refine ⟨?_, ?_⟩
              · show chosenLocation f.location_select f.location_other = e.newLocation
                rw [← hm'.1]
                exact hres.1
              · show u = e.updatedBy
                rw [← hm'.2]
                exact hres.2
            · have hn2 : maxEntryOf s.histories b.id = none := hnone
              have hres := hc2 hn2
              rw [hm'.1, hm'.2] at hres
              exact hres
          · rw [if_neg hcid]
            obtain ⟨hc1, hc2⟩ := hcons b hbmem2
            refine ⟨fun e he => ?_, fun hnone => ?_⟩
            · have he2 : maxEntryOf s.histories b.id = some e := he
              exact hc1 e he2
            · have hn2 : maxEntryOf s.histories b.id = none := hnone
              exact hc2 hn2

theorem bulkStep_preserves (newLoc updater now : String) (sc : Store × Nat) (bid : Nat)
    {c : CreationMap} (hwf : WF sc.1) (hcons : Consistent sc.1 c) :
    WF (bulkStep newLoc updater now sc bid).1 ∧
    Consistent (bulkStep newLoc updater now sc bid).1 c := by
  cases hb : boardById sc.1 bid with
  | none =>
      rw [bulkStep_missing _ _ _ _ _ hb]
      exact ⟨hwf, hcons⟩
  | some board =>
      have hid : board.id = bid := (boardById_mem hb).2
      have hbmem : board ∈ sc.1.boards := (boardById_mem hb).1
      rw [bulkStep_found _ _ _ _ _ board hb]
      obtain ⟨hwf1, hwf2, hwf3, hwf4⟩ := hwf
      by_cases hm : board.location ≠ newLoc ∨ board.user ≠ updater
      · simp only [if_pos hm]
        constructor
        · refine ⟨?_, ?_, ?_, ?_⟩
          · intro b' hb'mem
            obtain ⟨b, hbmem2, hgb⟩ := List.mem_map.mp hb'mem
            subst hgb
            rw [bulk_upd_id newLoc updater now bid b]
            exact hwf1 b hbmem2
          · intro e hmem
            rcases List.mem_append.mp hmem with h1 | h1
            · exact Nat.lt_succ_of_lt (hwf2 e h1)
            · rw [List.mem_singleton] at h1
              subst h1
              exact Nat.lt_succ_self _
          · intro e hmem
            rcases List.mem_append.mp hmem with h1 | h1
            · obtain ⟨b2, hb2mem, hb2id⟩ := hwf3 e h1
              refine ⟨_, List.mem_map_of_mem _ hb2mem, ?_⟩
              rw [bulk_upd_id newLoc updater now bid b2]
              exact hb2id
            · rw [List.mem_singleton] at h1
              subst h1
              refine ⟨_, List.mem_map_of_mem _ hbmem, ?_⟩
              rw [bulk_upd_id newLoc updater now bid board]
          · exact nodup_ids_map sc.1.boards _ (bulk_upd_id newLoc updater now bid) hwf4
        · intro b' hb'mem
          obtain ⟨b, hbmem2, hgb⟩ := List.mem_map.mp hb'mem
          subst hgb
          by_cases hcid : (b.id == bid) = true
          · have hbid2 : b.id = bid := by simpa using hcid
            have hbeq : b = board := nodup_ids_inj hwf4 hbmem2 hbmem (by rw [hbid2, hid])
            subst hbeq
            rw [if_pos hcid]
            have hmaxU : maxEntryOf (sc.1.histories ++
                [{ id := sc.1.nextHistoryId, boardId := b.id,
                   previousLocation := b.location, newLocation := newLoc,
                   updatedBy := updater, updatedAt := now }]) b.id =
                some { id := sc.1.nextHistoryId, boardId := b.id,
                       previousLocation := b.location, newLocation := newLoc,
                       updatedBy := updater, updatedAt := now } :=
              maxEntryOf_append_self sc.1.histories _ b.id rfl (fun x hx => hwf2 x hx)
            refine ⟨fun e he => ?_, fun hnone => ?_⟩
            · have he2 : maxEntryOf (sc.1.histories ++
                  [{ id := sc.1.nextHistoryId, boardId := b.id,
                     previousLocation := b.location, newLocation := newLoc,
                     updatedBy := updater, updatedAt := now }]) b.id = some e := he
              rw [hmaxU] at he2
              injection he2 with he2
              subst he2
              exact ⟨rfl, rfl⟩
            · have hn2 : maxEntryOf (sc.1.histories ++
                  [{ id := sc.1.nextHistoryId, boardId := b.id,
                     previousLocation := b.location, newLocation := newLoc,
                     updatedBy := updater, updatedAt := now }]) b.id = none := hnone
              rw [hmaxU] at hn2
              exact Option.noConfusion hn2
          · have hne : b.id ≠ bid := by simpa using hcid
            rw [if_neg hcid]
            have hmaxU : maxEntryOf (sc.1.histories ++
                [{ id := sc.1.nextHistoryId, boardId := board.id,
                   previousLocation := board.location, newLocation := newLoc,
                   updatedBy := updater, updatedAt := now }]) b.id =
                maxEntryOf sc.1.histories b.id := by
              apply maxEntryOf_append_ne
              show board.id ≠ b.id
              rw [hid]
              exact Ne.symm hne
            obtain ⟨hc1, hc2⟩ := hcons b hbmem2
            refine ⟨fun e he => ?_, fun hnone => ?_⟩
            · have he2 : maxEntryOf (sc.1.histories ++
                  [{ id := sc.1.nextHistoryId, boardId := board.id,
                     previousLocation := board.location, newLocation := newLoc,
                     updatedBy := updater, updatedAt := now }]) b.id = some e := he
              rw [hmaxU] at he2
              exact hc1 e he2
            · have hn2 : maxEntryOf (sc.1.histories ++
                  [{ id := sc.1.nextHistoryId, boardId := board.id,
                     previousLocation := board.location, newLocation := newLoc,
                     updatedBy := updater, updatedAt := now }]) b.id = none := hnone
              rw [hmaxU] at hn2
              exact hc2 hn2
      · have hm' : board.location = newLoc ∧ board.user = updater := by
          push_neg at hm
          exact hm
        simp only [if_neg hm]
        constructor
        · refine ⟨?_, ?_, ?_, ?_⟩
          · intro b' hb'mem
            obtain ⟨b, hbmem2, hgb⟩ := List.mem_map.mp hb'mem
            subst hgb
            rw [bulk_upd_id newLoc updater now bid b]
            exact hwf1 b hbmem2
          · intro e hmem
            exact hwf2 e hmem
          · intro e hmem
            obtain ⟨b2, hb2mem, hb2id⟩ := hwf3 e hmem
            refine ⟨_, List.mem_map_of_mem _ hb2mem, ?_⟩
            rw [bulk_upd_id newLoc updater now bid b2]
            exact hb2id
          · exact nodup_ids_map sc.1.boards _ (bulk_upd_id newLoc updater now bid) hwf4
        · intro b' hb'mem
          obtain ⟨b, hbmem2, hgb⟩ := List.mem_map.mp hb'mem
          subst hgb
          by_cases hcid : (b.id == bid) = true
          · have hbid2 : b.id = bid := by simpa using hcid
            have hbeq : b = board := nodup_ids_inj hwf4 hbmem2 hbmem (by rw [hbid2, hid])
            subst hbeq
            rw [if_pos hcid]
            obtain ⟨hc1, hc2⟩ := hcons b hbmem2
            refine ⟨fun e he => ?_, fun hnone => ?_⟩
            · have he2 : maxEntryOf sc.1.histories b.id = some e := he
              have hres := hc1 e he2
              refine ⟨?_, ?_⟩
              · show newLoc = e.newLocation
                rw [← hm'.1]
                exact hres.1
              · show updater = e.updatedBy
                rw [← hm'.2]
                exact hres.2
            · have hn2 : maxEntryOf sc.1.histories b.id = none := hnone
              have hres := hc2 hn2
              rw [hm'.1, hm'.2] at hres
              exact hres
          · rw [if_neg hcid]
            obtain ⟨hc1, hc2⟩ := hcons b hbmem2
            refine ⟨fun e he => ?_, fun hnone => ?_⟩
            · have he2 : maxEntryOf sc.1.histories b.id = some e := he
              exact hc1 e he2
            · have hn2 : maxEntryOf sc.1.histories b.id = none := hnone
              exact hc2 hn2

theorem bulkRun_preserves (newLoc updater now : String) (ids : List Nat) :
    ∀ (sc : Store × Nat) (c : CreationMap), WF sc.1 → Consistent sc.1 c →
      WF (bulkRun newLoc updater now ids sc).1 ∧
      Consistent (bulkRun newLoc updater now ids sc).1 c := by
  induction ids with
  | nil =>
      intro sc c hwf hcons
      exact ⟨hwf, hcons⟩
  | cons j rest ih =>
      intro sc c hwf hcons
      obtain ⟨hwf2, hcons2⟩ := bulkStep_preserves newLoc updater now sc j hwf hcons
      exact ih (bulkStep newLoc updater now sc j) c hwf2 hcons2

theorem applyOp_preserves (sc : Store × CreationMap) (op : Op)
    (hwf : WF sc.1) (hcons : Consistent sc.1 sc.2) :
    WF (applyOp sc op).1 ∧ Consistent (applyOp sc op).1 (applyOp sc op).2 := by
  obtain ⟨s, c⟩ := sc
  cases op with
  | add f u now =>
      cases hres : add_board s f u now with
      | validationError =>
          simp only [applyOp, hres]
          exact ⟨hwf, hcons⟩
      | nameConflict =>
          simp only [applyOp, hres]
          exact ⟨hwf, hcons⟩
      | serialConflict =>
          simp only [applyOp, hres]
          exact ⟨hwf, hcons⟩
      | success s' =>
          simp only [applyOp, hres]
          exact add_preserves hwf hcons hres
  | update bid f u now =>
      cases hres : update_board s bid f u now with
      | notFound =>
          simp only [applyOp, hres]
          exact ⟨hwf, hcons⟩
      | validationError =>
          simp only [applyOp, hres]
          exact ⟨hwf, hcons⟩
      | nameConflict =>
          simp only [applyOp, hres]
          exact ⟨hwf, hcons⟩
      | serialConflict =>
          simp only [applyOp, hres]
          exact ⟨hwf, hcons⟩
      | success s' =>
          simp only [applyOp, hres]
          exact update_preserves hwf hcons hres
  | bulk ids f u now =>
      cases hres : bulk_update s ids f u now with
      | none =>
          simp only [applyOp, hres]
          exact ⟨hwf, hcons⟩
      | some p =>
          obtain ⟨s', cnt⟩ := p
          simp only [applyOp, hres]
          unfold bulk_update at hres
          by_cases hne : ids = []
          · rw [if_pos hne] at hres
            exact Option.noConfusion hres
          · rw [if_neg hne] at hres
            injection hres with hres
            have h1 := bulkRun_preserves (chosenLocation f.location_select f.location_other)
              u now ids (s, 0) c hwf hcons
            rw [hres] at h1
            exact h1
  | del bid =>
      cases hres : delete_board s bid with
      | none =>
          simp only [applyOp, hres]
          exact ⟨hwf, hcons⟩
      | some s' =>
          simp only [applyOp, hres]
          exact delete_preserves hwf hcons hres

theorem runOps_invariant (ops : List Op) :
    WF (runOps ops).1 ∧ Consistent (runOps ops).1 (runOps ops).2 := by
  have hinit : WF initStore ∧ Consistent initStore (fun _ => none) := by
    constructor
    · refine ⟨?_, ?_, ?_, ?_⟩
      · intro b hb
        cases hb
      · intro e he
        cases he
      · intro e he
        cases he
      · exact List.nodup_nil
    · intro b hb
      cases hb
  suffices hstep : ∀ (sc : Store × CreationMap), WF sc.1 → Consistent sc.1 sc.2 →
      WF (ops.foldl applyOp sc).1 ∧
      Consistent (ops.foldl applyOp sc).1 (ops.foldl applyOp sc).2 by
    exact hstep (initStore, fun _ => none) hinit.1 hinit.2
  induction ops with
  | nil =>
      intro sc h1 h2
      exact ⟨h1, h2⟩
  | cons op rest ih =>
      intro sc h1 h2
      obtain ⟨h3, h4⟩ := applyOp_preserves sc op h1 h2
      exact ih (applyOp sc op) h3 h4

/-! ### Claim C2 -/

/-- Claim C2: after any sequence of create, update, bulk-update and
delete operations run from the fresh store, every existing board's
location and custodian equal the `newLocation` and `updatedBy` of its
history entry with the largest id, and equal the values recorded at
creation when the board has no history entry. -/
theorem C2_board_reflects_history (ops : List Op) :
    ∀ b ∈ (runOps ops).1.boards,
      (∀ e, maxEntryFor (runOps ops).1 b.id = some e →
        b.location = e.newLocation ∧ b.user = e.updatedBy) ∧
      (maxEntryFor (runOps ops).1 b.id = none →
        (runOps ops).2 b.id = some (b.location, b.user)) :=
  (runOps_invariant ops).2

/-- Witness for C2 at a one-operation run creating a single board. -/
theorem C2_board_reflects_history_witness :
    (∀ e, maxEntryFor (runOps [Op.add fUpd "alice" "t1"]).1 bNew.id = some e →
      bNew.location = e.newLocation ∧ bNew.user = e.updatedBy) ∧
    (maxEntryFor (runOps [Op.add fUpd "alice" "t1"]).1 bNew.id = none →
      (runOps [Op.add fUpd "alice" "t1"]).2 bNew.id = some (bNew.location, bNew.user)) :=
  C2_board_reflects_history [Op.add fUpd "alice" "t1"] bNew (by decide)

/-- Witness for the amended C3 at a form with an empty name. -/
theorem C3_create_validation_witness :
    add_board sAB fEmpty "bob" "t9" = .validationError ∧
    applyOp (sAB, cEmpty) (.add fEmpty "bob" "t9") = (sAB, cEmpty) :=
  ⟨(C3_create_validation sAB cEmpty fEmpty "bob" "t9").1.mpr (by decide),
   (C3_create_validation sAB cEmpty fEmpty "bob" "t9").2
     ((C3_create_validation sAB cEmpty fEmpty "bob" "t9").1.mpr (by decide))⟩
